import Mathlib

/-
Shallow embedding of the eyebrow-studio prototype (app/studio/page.tsx,
richest variant, plus the fill-polygon variant of drawOneSide).

Numbers are modelled as exact rationals.  The browser primitive
Math.sin(Math.PI * t) is modelled by an explicit function parameter
sinpi : Rat -> Rat, so every definition stays executable; all theorems
about the renderer quantify over sinpi.
-/

namespace EyesStudio

/-- Normalized facial landmark point (x, y in 0..1), from the detector. -/
structure Landmark where
  x : ℚ
  y : ℚ
deriving DecidableEq, Repr

/-- Pixel-space point used by the renderer. -/
structure Pt where
  x : ℚ
  y : ℚ
deriving DecidableEq, Repr

/-- EyebrowStyle record from page.tsx. -/
structure EyebrowStyle where
  id : String
  name : String
  color : String
  thickness : ℚ
  offsetY : ℚ
deriving DecidableEq, Repr, Inhabited

/-- Capture record from page.tsx. -/
structure Capture where
  url : String
  createdAt : ℤ
deriving DecidableEq, Repr

/-- First catalog entry. -/
def naturalStyle : EyebrowStyle :=
  { id := "natural", name := "내추럴", color := "rgba(60, 40, 30, 0.75)",
    thickness := 1.0, offsetY := 0.0 }

/-- Second catalog entry. -/
def softFlatStyle : EyebrowStyle :=
  { id := "soft-flat", name := "소프트 일자", color := "rgba(45, 35, 28, 0.82)",
    thickness := 1.3, offsetY := -0.003 }

/-- Third catalog entry. -/
def flatStyle : EyebrowStyle :=
  { id := "flat", name := "선명 일자", color := "rgba(30, 22, 18, 0.88)",
    thickness := 1.6, offsetY := -0.006 }

/-- Fourth catalog entry. -/
def archStyle : EyebrowStyle :=
  { id := "arch", name := "아치", color := "rgba(55, 35, 25, 0.85)",
    thickness := 1.4, offsetY := -0.01 }

/-- Fifth catalog entry. -/
def strongArchStyle : EyebrowStyle :=
  { id := "strong-arch", name := "강한 아치", color := "rgba(25, 18, 14, 0.9)",
    thickness := 1.9, offsetY := -0.014 }

/-- Style catalog, in source order (the styles useState initializer). -/
def styles : List EyebrowStyle :=
  [naturalStyle, softFlatStyle, flatStyle, archStyle, strongArchStyle]

/-- Style resolution from the render loop:
styles.find(s s.id equals selectedStyleId) with fallback to styles at 0. -/
def resolveStyle (sel : String) : EyebrowStyle :=
  (styles.find? fun s => s.id == sel).getD (styles.getD 0 default)

/-- Timestamp-deduplicated inference calls of the Frame Loop (render):
given the last-processed timestamp and the list of per-iteration
timestamps, returns the timestamps at which detectForVideo is invoked.
An iteration whose timestamp equals the last-processed one returns
before invoking inference; otherwise the guard ref is updated and the
detect call happens at that timestamp. -/
def invokedTimes (last : ℚ) : List ℚ → List ℚ
  | [] => []
  | t :: ts => if last = t then invokedTimes last ts else t :: invokedTimes t ts

/-- Capture trigger (handleCapture): encodes the surface to a url and
prepends a Capture stamped with the current time to the list. -/
def handleCapture (url : String) (now : ℤ) (prev : List Capture) : List Capture :=
  { url := url, createdAt := now } :: prev

/-- Left-eyebrow landmark index list (MediaPipe FaceMesh indices). -/
def LEFT_EYEBROW : List ℕ := [52, 65, 55, 107, 66, 105, 63, 70, 156]

/-- Right-eyebrow landmark index list (MediaPipe FaceMesh indices). -/
def RIGHT_EYEBROW : List ℕ := [282, 295, 285, 336, 296, 334, 293, 300, 383]

/-- Per-style arch strength lookup (getArchStrength), keyed by the style
identifier only; the switch falls through to 0.003 for unknown ids. -/
def getArchStrength (styleId : String) : ℚ :=
  if styleId = "natural" then 0.0
  else if styleId = "soft-flat" then 0.003
  else if styleId = "flat" then 0.0015
  else if styleId = "arch" then 0.007
  else if styleId = "strong-arch" then 0.011
  else 0.003

/-- Normalized position along the index list:
indices.length equal 1 gives 0.5, otherwise idx / (indices.length - 1). -/
def tParam (L idx : ℕ) : ℚ :=
  if L = 1 then 0.5 else (idx : ℚ) / ((L : ℚ) - 1)

/-- One entry of the points array of drawOneSide (stroke variant): a
missing landmark yields the point (0, 0); otherwise the landmark is
scaled to pixels, shifted by the style offset, and the arch
displacement -archStrength * h * sin(pi * t) is added to y. -/
def archPoint (sinpi : ℚ → ℚ) (landmarks : List Landmark)
    (style : EyebrowStyle) (w h : ℚ) (L idx i : ℕ) : Pt :=
  match landmarks.get? i with
  | none => { x := 0, y := 0 }
  | some lm =>
    let t := tParam L idx
    let x := lm.x * w
    let y := lm.y * h + style.offsetY * h
    let arch := -(getArchStrength style.id) * h * sinpi t
    { x := x, y := y + arch }

/-- Index-tracking worker for buildPoints, mirroring indices.map with
its position argument idx. -/
def buildPointsAux (sinpi : ℚ → ℚ) (landmarks : List Landmark)
    (style : EyebrowStyle) (w h : ℚ) (L : ℕ) : ℕ → List ℕ → List Pt
  | _, [] => []
  | idx, i :: rest =>
    archPoint sinpi landmarks style w h L idx i ::
      buildPointsAux sinpi landmarks style w h L (idx + 1) rest

/-- Points array of drawOneSide (stroke variant): one entry per
referenced index. -/
def buildPoints (sinpi : ℚ → ℚ) (landmarks : List Landmark)
    (indices : List ℕ) (style : EyebrowStyle) (w h : ℚ) : List Pt :=
  buildPointsAux sinpi landmarks style w h indices.length 0 indices

/-- Canvas path command emitted by the renderer. -/
inductive PathCmd where
  | moveTo (x y : ℚ)
  | lineTo (x y : ℚ)
  | quadTo (cx cy x y : ℚ)
deriving DecidableEq, Repr

/-- Interior quadratic segments of smoothPath: for each consecutive
pair (curr, next) a quadraticCurveTo with curr as control point and the
midpoint of curr and next as endpoint; the loop stops when fewer than
two points remain. -/
def quadSegs : List Pt → List PathCmd
  | c :: n :: rest =>
    PathCmd.quadTo c.x c.y ((c.x + n.x) / 2) ((c.y + n.y) / 2) ::
      quadSegs (n :: rest)
  | _ => []

/-- Last point of a nonempty point list, as used by smoothPath for its
final lineTo. -/
def lastPt (p : Pt) : List Pt → Pt
  | [] => p
  | q :: qs => lastPt q qs

/-- Path built by smoothPath: nothing for fewer than two points,
otherwise moveTo the first point, the interior quadratic segments, and
a final lineTo the last point. -/
def smoothPath : List Pt → List PathCmd
  | [] => []
  | [_] => []
  | p0 :: p1 :: rest =>
    PathCmd.moveTo p0.x p0.y ::
      (quadSegs (p1 :: rest) ++
        [PathCmd.lineTo (lastPt p1 rest).x (lastPt p1 rest).y])

/-- Modelled from the spec: the smoothing rule as the spec words it,
pairing each interior point with its successor and emitting a quadratic
curve with the interior point as control and their midpoint as
endpoint. Used only to compare against the source smoothPath. -/
def specQuadCmds (pts : List Pt) : List PathCmd :=
  (pts.zip pts.tail).map fun cn =>
    PathCmd.quadTo cn.1.x cn.1.y ((cn.1.x + cn.2.x) / 2) ((cn.1.y + cn.2.y) / 2)

/-- Stroke operation on the canvas: a path is built and then stroked
with the current color, line width and global alpha. -/
inductive DrawOp where
  | strokePath (color : String) (lineWidth alpha : ℚ) (cmds : List PathCmd)
deriving DecidableEq, Repr

/-- Draw operations of drawOneSide (stroke variant): nothing for an
empty index list, otherwise the main smoothed stroke at full alpha and
the two texture strokes shifted by the spread at alphas 0.8 and 0.7. -/
def drawOneSideOps (sinpi : ℚ → ℚ) (landmarks : List Landmark)
    (indices : List ℕ) (style : EyebrowStyle) (w h : ℚ) : List DrawOp :=
  if indices = [] then []
  else
    let lineWidth := h * 0.012 * style.thickness
    let points := buildPoints sinpi landmarks indices style w h
    let spread := lineWidth * 0.18
    let shiftedUp := points.map fun p => { x := p.x, y := p.y - spread }
    let shiftedDown := points.map fun p => { x := p.x, y := p.y + spread }
    [DrawOp.strokePath style.color lineWidth 1 (smoothPath points),
     DrawOp.strokePath style.color lineWidth 0.8 (smoothPath shiftedUp),
     DrawOp.strokePath style.color lineWidth 0.7 (smoothPath shiftedDown)]

/-- Path commands of the fill-polygon variant of drawOneSide (earlier
iteration of the component): a referenced index with no landmark is
skipped, a present one is mapped to pixels with the offset applied and
emitted as moveTo when at position 0 and lineTo otherwise. -/
def fillCmdsAux (landmarks : List Landmark) (style : EyebrowStyle)
    (w h : ℚ) : ℕ → List ℕ → List PathCmd
  | _, [] => []
  | idx, i :: rest =>
    match landmarks.get? i with
    | none => fillCmdsAux landmarks style w h (idx + 1) rest
    | some lm =>
      (if idx = 0 then PathCmd.moveTo (lm.x * w) ((lm.y + style.offsetY) * h)
       else PathCmd.lineTo (lm.x * w) ((lm.y + style.offsetY) * h)) ::
        fillCmdsAux landmarks style w h (idx + 1) rest

/-- Fill-variant path of drawOneSide over an index list. -/
def fillCmds (landmarks : List Landmark) (style : EyebrowStyle)
    (w h : ℚ) (indices : List ℕ) : List PathCmd :=
  fillCmdsAux landmarks style w h 0 indices

/-- Y coordinates mentioned by one path command. -/
def cmdYs : PathCmd → List ℚ
  | PathCmd.moveTo _ y => [y]
  | PathCmd.lineTo _ y => [y]
  | PathCmd.quadTo _ cy _ y => [cy, y]

lemma invokedTimes_mem_gt (ts : List ℚ) (last : ℚ)
    (hs : ts.Sorted (· ≤ ·)) (hb : ∀ t ∈ ts, last ≤ t) :
    ∀ u ∈ invokedTimes last ts, last < u := by
  induction ts generalizing last with
  | nil => intro u hu; simp [invokedTimes] at hu
  | cons t ts ih =>
    rw [List.sorted_cons] at hs
    intro u hu
    by_cases hlt : last = t
    · rw [invokedTimes, if_pos hlt] at hu
      exact ih last hs.2 (fun x hx => hlt ▸ hs.1 x hx) u hu
    · rw [invokedTimes, if_neg hlt] at hu
      have hlast_t : last < t := lt_of_le_of_ne (hb t (List.mem_cons_self t ts)) hlt
      rcases List.mem_cons.mp hu with h | h
      · exact h ▸ hlast_t
      · exact lt_trans hlast_t (ih t hs.2 hs.1 u h)

lemma invokedTimes_sorted (ts : List ℚ) (last : ℚ)
    (hs : ts.Sorted (· ≤ ·)) (hb : ∀ t ∈ ts, last ≤ t) :
    (invokedTimes last ts).Sorted (· < ·) := by
  induction ts generalizing last with
  | nil => simp [invokedTimes]
  | cons t ts ih =>
    rw [List.sorted_cons] at hs
    by_cases hlt : last = t
    · rw [invokedTimes, if_pos hlt]
      exact ih last hs.2 (fun x hx => hlt ▸ hs.1 x hx)
    · rw [invokedTimes, if_neg hlt]
      rw [List.sorted_cons]
      exact ⟨invokedTimes_mem_gt ts t hs.2 hs.1, ih t hs.2 hs.1⟩

/-- C1: with monotonically non-decreasing frame timestamps, the Frame
Loop never invokes inference twice with the same timestamp value (the
invoked timestamps are strictly increasing, hence pairwise distinct),
and for the concrete timestamp sequence [T, T, T, T+1] with the
last-processed guard initially different from T, exactly the two
invocations at T and T+1 occur. -/
theorem frameLoop_no_duplicate_inference :
    (∀ (last : ℚ) (ts : List ℚ), ts.Sorted (· ≤ ·) → (∀ t ∈ ts, last ≤ t) →
      (invokedTimes last ts).Sorted (· < ·) ∧ (invokedTimes last ts).Nodup) ∧
    (∀ (last T : ℚ), last ≠ T →
      invokedTimes last [T, T, T, T + 1] = [T, T + 1]) := by
  constructor
  · intro last ts hs hb
    have hsorted := invokedTimes_sorted ts last hs hb
    exact ⟨hsorted, hsorted.imp fun h => ne_of_lt h⟩
  · intro last T h
    have hT : ¬ (T = T + 1) := (lt_add_one T).ne
    rw [invokedTimes, if_neg h, invokedTimes, if_pos rfl, invokedTimes,
      if_pos rfl, invokedTimes, if_neg hT, invokedTimes]

/-- Witness for C1 at a concrete timestamp sequence. -/
theorem frameLoop_no_duplicate_inference_witness :
    (invokedTimes (-1) [0, 0, 1]).Nodup ∧
      invokedTimes (-1) [0, 0, 0, 0 + 1] = [0, 0 + 1] :=
  ⟨(frameLoop_no_duplicate_inference.1 (-1) [0, 0, 1] (by decide) (by decide)).2,
   frameLoop_no_duplicate_inference.2 (-1) 0 (by decide)⟩

/-- C2: resolving a style identifier against the catalog yields the
catalog entry with that identifier when one exists, and otherwise falls
back to the first catalog entry (the natural style); the resolution is
a total function, so no error is raised. -/
theorem styleResolution_fallback (sel : String) :
    (∀ s ∈ styles, s.id = sel → resolveStyle sel = s) ∧
    ((∀ s ∈ styles, s.id ≠ sel) → resolveStyle sel = naturalStyle) := by
  constructor
  · intro s hs hid
    subst hid
    simp only [styles, List.mem_cons, List.mem_singleton, List.not_mem_nil, or_false] at hs
    rcases hs with h | h | h | h | h <;> subst h <;>
      simp [resolveStyle, styles, List.find?, naturalStyle, softFlatStyle,
        flatStyle, archStyle, strongArchStyle]
  · intro habs
    have hfind : styles.find? (fun s => s.id == sel) = none := by
      rw [List.find?_eq_none]
      intro s hs
      simpa using habs s hs
    rw [resolveStyle, hfind]
    rfl

/-- Witness for C2: a present identifier resolves to its entry, an
absent identifier falls back to the natural style. -/
theorem styleResolution_fallback_witness :
    resolveStyle "arch" = archStyle ∧ resolveStyle "bogus" = naturalStyle :=
  ⟨(styleResolution_fallback "arch").1 archStyle
      (by simp [styles, naturalStyle, softFlatStyle, flatStyle, archStyle, strongArchStyle]) rfl,
   (styleResolution_fallback "bogus").2
      (by simp [styles, naturalStyle, softFlatStyle, flatStyle, archStyle, strongArchStyle])⟩

/-- C7: triggering capture exactly twice on the initial (empty) Capture
Store yields exactly two records, most recent first (the second capture
is prepended before the first), each carrying the timestamp taken at
its trigger; when the clock advanced between the triggers the creation
timestamps strictly increase from older to newer. -/
theorem captureStore_two_triggers (u1 u2 : String) (t1 t2 : ℤ) (h : t1 < t2) :
    handleCapture u2 t2 (handleCapture u1 t1 []) =
      [{ url := u2, createdAt := t2 }, { url := u1, createdAt := t1 }] ∧
    (handleCapture u2 t2 (handleCapture u1 t1 [])).length = 2 ∧
    ((handleCapture u2 t2 (handleCapture u1 t1 [])).map Capture.createdAt).Sorted (· > ·) := by
  refine ⟨rfl, rfl, ?_⟩
  simp [handleCapture, List.sorted_cons]
  exact h

/-- Witness for C7 at concrete urls and times. -/
theorem captureStore_two_triggers_witness :
    handleCapture "b" 5 (handleCapture "a" 3 []) =
      [{ url := "b", createdAt := 5 }, { url := "a", createdAt := 3 }] ∧
    (handleCapture "b" 5 (handleCapture "a" 3 [])).length = 2 ∧
    ((handleCapture "b" 5 (handleCapture "a" 3 [])).map Capture.createdAt).Sorted (· > ·) :=
  captureStore_two_triggers "a" "b" 3 5 (by decide)

lemma quadSegs_eq_spec : ∀ pts : List Pt, quadSegs pts = specQuadCmds pts
  | [] => rfl
  | [_] => rfl
  | c :: n :: rest => by
    rw [quadSegs, quadSegs_eq_spec (n :: rest)]
    rfl

lemma lastPt_eq_getLast (p : Pt) :
    ∀ l : List Pt, lastPt p l = (p :: l).getLast (List.cons_ne_nil p l) := by
  intro l
  induction l generalizing p with
  | nil => rfl
  | cons q qs ih =>
    rw [lastPt, ih q]
    exact (List.getLast_cons (List.cons_ne_nil q qs)).symm

lemma specQuadCmds_length (pts : List Pt) :
    (specQuadCmds pts).length = pts.length - 1 := by
  simp [specQuadCmds]

/-- C3: for a point sequence of length at least two, smoothPath moves to
the first point, emits for each interior point a quadratic curve with
that point as control and the midpoint to its successor as endpoint,
and ends with a straight line to the last point; each of the
rest.length - 1 interior points contributes exactly one curve. -/
theorem smoothPath_midpoint_quadratics (p0 : Pt) (rest : List Pt) (h : rest ≠ []) :
    smoothPath (p0 :: rest) =
      PathCmd.moveTo p0.x p0.y ::
        (specQuadCmds rest ++
          [PathCmd.lineTo (rest.getLast h).x (rest.getLast h).y]) ∧
    (specQuadCmds rest).length = rest.length - 1 := by
  cases rest with
  | nil => exact absurd rfl h
  | cons p1 rest1 =>
    refine ⟨?_, specQuadCmds_length _⟩
    rw [smoothPath, quadSegs_eq_spec, lastPt_eq_getLast]

/-- Witness for C3 on a concrete three-point sequence. -/
theorem smoothPath_midpoint_quadratics_witness :
    smoothPath [{ x := 0, y := 0 }, { x := 1, y := 1 }, { x := 2, y := 0 }] =
      PathCmd.moveTo (0 : ℚ) 0 ::
        (specQuadCmds [{ x := 1, y := 1 }, { x := 2, y := 0 }] ++
          [PathCmd.lineTo
            (([{ x := 1, y := 1 }, { x := 2, y := 0 }] : List Pt).getLast (by decide)).x
            (([{ x := 1, y := 1 }, { x := 2, y := 0 }] : List Pt).getLast (by decide)).y]) ∧
    (specQuadCmds ([{ x := 1, y := 1 }, { x := 2, y := 0 }] : List Pt)).length =
      ([{ x := 1, y := 1 }, { x := 2, y := 0 }] : List Pt).length - 1 :=
  smoothPath_midpoint_quadratics { x := 0, y := 0 }
    [{ x := 1, y := 1 }, { x := 2, y := 0 }] (by decide)

lemma buildPointsAux_length (sinpi : ℚ → ℚ) (landmarks : List Landmark)
    (style : EyebrowStyle) (w h : ℚ) (L : ℕ) :
    ∀ (l : List ℕ) (k : ℕ),
      (buildPointsAux sinpi landmarks style w h L k l).length = l.length := by
  intro l
  induction l with
  | nil => intro k; rfl
  | cons i rest ih =>
    intro k
    rw [buildPointsAux, List.length_cons, List.length_cons, ih (k + 1)]

lemma buildPointsAux_get? (sinpi : ℚ → ℚ) (landmarks : List Landmark)
    (style : EyebrowStyle) (w h : ℚ) (L : ℕ) :
    ∀ (l : List ℕ) (k idx : ℕ),
      (buildPointsAux sinpi landmarks style w h L k l).get? idx =
        (l.get? idx).map fun i => archPoint sinpi landmarks style w h L (k + idx) i := by
  intro l
  induction l with
  | nil => intro k idx; rfl
  | cons i rest ih =>
    intro k idx
    cases idx with
    | zero => rfl
    | succ idx =>
      rw [buildPointsAux]
      show (buildPointsAux sinpi landmarks style w h L (k + 1) rest).get? idx = _
      rw [ih (k + 1) idx]
      have : k + 1 + idx = k + (idx + 1) := by omega
      rw [this]
      rfl

lemma buildPoints_get? (sinpi : ℚ → ℚ) (landmarks : List Landmark)
    (indices : List ℕ) (style : EyebrowStyle) (w h : ℚ) (idx : ℕ) :
    (buildPoints sinpi landmarks indices style w h).get? idx =
      (indices.get? idx).map fun i =>
        archPoint sinpi landmarks style w h indices.length idx i := by
  rw [buildPoints, buildPointsAux_get?]
  simp

lemma buildPoints_length (sinpi : ℚ → ℚ) (landmarks : List Landmark)
    (indices : List ℕ) (style : EyebrowStyle) (w h : ℚ) :
    (buildPoints sinpi landmarks indices style w h).length = indices.length :=
  buildPointsAux_length sinpi landmarks style w h indices.length indices 0

lemma buildPoints_of_missing (sinpi : ℚ → ℚ) (landmarks : List Landmark)
    (indices : List ℕ) (style : EyebrowStyle) (w h : ℚ) (idx i : ℕ)
    (hidx : indices.get? idx = some i) (hnone : landmarks.get? i = none) :
    (buildPoints sinpi landmarks indices style w h).get? idx =
      some { x := 0, y := 0 } := by
  rw [buildPoints_get?, hidx, Option.map_some', archPoint, hnone]

/-- C9: the stroke renderer builds exactly one point per referenced
index (a missing landmark contributes the point (0, 0), no entry is
dropped), so both eyebrow paths are always built from exactly 9
points. -/
theorem strokePoints_one_per_index (sinpi : ℚ → ℚ) (landmarks : List Landmark)
    (indices : List ℕ) (style : EyebrowStyle) (w h : ℚ) :
    (buildPoints sinpi landmarks indices style w h).length = indices.length ∧
    (buildPoints sinpi landmarks LEFT_EYEBROW style w h).length = 9 ∧
    (buildPoints sinpi landmarks RIGHT_EYEBROW style w h).length = 9 ∧
    (∀ idx i, indices.get? idx = some i → landmarks.get? i = none →
      (buildPoints sinpi landmarks indices style w h).get? idx =
        some { x := 0, y := 0 }) := by
  refine ⟨buildPoints_length _ _ _ _ _ _, ?_, ?_, ?_⟩
  · rw [buildPoints_length]; rfl
  · rw [buildPoints_length]; rfl
  · intro idx i hidx hnone
    exact buildPoints_of_missing sinpi landmarks indices style w h idx i hidx hnone

/-- Witness for C9 on a concrete landmark set and index list. -/
theorem strokePoints_one_per_index_witness :
    (buildPoints id [] [3] naturalStyle 1 1).length = [3].length ∧
    (buildPoints id [] [3] naturalStyle 1 1).get? 0 = some { x := 0, y := 0 } :=
  ⟨(strokePoints_one_per_index id [] [3] naturalStyle 1 1).1,
   (strokePoints_one_per_index id [] [3] naturalStyle 1 1).2.2.2 0 3 rfl rfl⟩

/-- C10: drawOneSide with an empty index list returns immediately and
emits no draw operation, and smoothPath emits no path command for
point lists of length below two, leaving the drawing surface
unchanged by such a call. -/
theorem emptyInput_draws_nothing :
    (∀ (sinpi : ℚ → ℚ) (landmarks : List Landmark) (style : EyebrowStyle) (w h : ℚ),
      drawOneSideOps sinpi landmarks [] style w h = []) ∧
    (∀ pts : List Pt, pts.length < 2 → smoothPath pts = []) := by
  constructor
  · intro sinpi landmarks style w h
    rw [drawOneSideOps, if_pos rfl]
  · intro pts hlen
    match pts with
    | [] => rfl
    | [_] => rfl
    | _ :: _ :: _ => simp at hlen; omega

/-- Witness for C10 at an empty index list and a one-point path. -/
theorem emptyInput_draws_nothing_witness :
    drawOneSideOps id [] [] naturalStyle 1 1 = [] ∧
      smoothPath [{ x := 5, y := 7 }] = [] :=
  ⟨emptyInput_draws_nothing.1 id [] naturalStyle 1 1,
   emptyInput_draws_nothing.2 [{ x := 5, y := 7 }] (by decide)⟩

lemma archPoint_of_present {landmarks : List Landmark} {i : ℕ} {lm : Landmark}
    (sinpi : ℚ → ℚ) (style : EyebrowStyle) (w h : ℚ) (L idx : ℕ)
    (hlm : landmarks.get? i = some lm) :
    archPoint sinpi landmarks style w h L idx i =
      { x := lm.x * w,
        y := lm.y * h + style.offsetY * h +
          (-(getArchStrength style.id) * h * sinpi (tParam L idx)) } := by
  rw [archPoint, hlm]

/-- C4: for an index list of length L at least 2, the point at position
idx gets the arch displacement -archStrength(style.id) * h * sin(pi*t)
with t = idx / (L - 1) added to its y coordinate, where the arch
strength is the fixed five-entry lookup keyed by the style identifier
alone (getArchStrength takes only the id, so it is numerically
independent of the style's offsetY field). -/
theorem archDisplacement_formula (sinpi : ℚ → ℚ) (landmarks : List Landmark)
    (indices : List ℕ) (style : EyebrowStyle) (w h : ℚ) (idx i : ℕ) (lm : Landmark)
    (hL : 2 ≤ indices.length) (hidx : indices.get? idx = some i)
    (hlm : landmarks.get? i = some lm) :
    (buildPoints sinpi landmarks indices style w h).get? idx =
      some { x := lm.x * w,
             y := lm.y * h + style.offsetY * h +
               (-(getArchStrength style.id) * h *
                 sinpi ((idx : ℚ) / ((indices.length : ℚ) - 1))) } ∧
    getArchStrength "natural" = 0.0 ∧
    getArchStrength "soft-flat" = 0.003 ∧
    getArchStrength "flat" = 0.0015 ∧
    getArchStrength "arch" = 0.007 ∧
    getArchStrength "strong-arch" = 0.011 := by
  refine ⟨?_, rfl, rfl, rfl, rfl, rfl⟩
  have hL1 : indices.length ≠ 1 := by omega
  rw [buildPoints_get?, hidx, Option.map_some',
    archPoint_of_present sinpi style w h indices.length idx hlm, tParam, if_neg hL1]

/-- Witness for C4 at position 0 of the left-eyebrow index list. -/
theorem archDisplacement_formula_witness :
    (buildPoints id (List.replicate 53 { x := 0.3, y := 0.7 })
        LEFT_EYEBROW naturalStyle 3 5).get? 0 =
      some { x := (Landmark.mk 0.3 0.7).x * 3,
             y := (Landmark.mk 0.3 0.7).y * 5 + naturalStyle.offsetY * 5 +
               (-(getArchStrength naturalStyle.id) * 5 *
                 id (((0 : ℕ) : ℚ) / ((LEFT_EYEBROW.length : ℚ) - 1))) } ∧
    getArchStrength "natural" = 0.0 ∧
    getArchStrength "soft-flat" = 0.003 ∧
    getArchStrength "flat" = 0.0015 ∧
    getArchStrength "arch" = 0.007 ∧
    getArchStrength "strong-arch" = 0.011 :=
  archDisplacement_formula id (List.replicate 53 { x := 0.3, y := 0.7 })
    LEFT_EYEBROW naturalStyle 3 5 0 52 { x := 0.3, y := 0.7 }
    (by decide) rfl rfl

/-- C5: every landmark referenced by the index list and present in the
landmark set is mapped to pixel coordinates x = point.x * width and
y = point.y * height + style.offsetY * height, before the arch
displacement term is added. -/
theorem pixelCoordinate_mapping (sinpi : ℚ → ℚ) (landmarks : List Landmark)
    (indices : List ℕ) (style : EyebrowStyle) (w h : ℚ) (idx i : ℕ) (lm : Landmark)
    (hidx : indices.get? idx = some i) (hlm : landmarks.get? i = some lm) :
    (buildPoints sinpi landmarks indices style w h).get? idx =
      some { x := lm.x * w,
             y := lm.y * h + style.offsetY * h +
               (-(getArchStrength style.id) * h *
                 sinpi (tParam indices.length idx)) } := by
  rw [buildPoints_get?, hidx, Option.map_some',
    archPoint_of_present sinpi style w h indices.length idx hlm]

/-- Witness for C5 at position 1 of the right-eyebrow index list. -/
theorem pixelCoordinate_mapping_witness :
    (buildPoints id (List.replicate 296 { x := 0.2, y := 0.6 })
        RIGHT_EYEBROW archStyle 4 9).get? 1 =
      some { x := (Landmark.mk 0.2 0.6).x * 4,
             y := (Landmark.mk 0.2 0.6).y * 9 + archStyle.offsetY * 9 +
               (-(getArchStrength archStyle.id) * 9 *
                 id (tParam RIGHT_EYEBROW.length 1)) } :=
  pixelCoordinate_mapping id (List.replicate 296 { x := 0.2, y := 0.6 })
    RIGHT_EYEBROW archStyle 4 9 1 295 { x := 0.2, y := 0.6 } rfl rfl

lemma fillCmdsAux_cons_none {landmarks : List Landmark} {i : ℕ}
    (style : EyebrowStyle) (w h : ℚ) (k : ℕ) (rest : List ℕ)
    (hg : landmarks.get? i = none) :
    fillCmdsAux landmarks style w h k (i :: rest) =
      fillCmdsAux landmarks style w h (k + 1) rest := by
  rw [fillCmdsAux, hg]

lemma fillCmdsAux_cons_some {landmarks : List Landmark} {i : ℕ} {lm : Landmark}
    (style : EyebrowStyle) (w h : ℚ) (k : ℕ) (rest : List ℕ)
    (hg : landmarks.get? i = some lm) :
    fillCmdsAux landmarks style w h k (i :: rest) =
      (if k = 0 then PathCmd.moveTo (lm.x * w) ((lm.y + style.offsetY) * h)
       else PathCmd.lineTo (lm.x * w) ((lm.y + style.offsetY) * h)) ::
        fillCmdsAux landmarks style w h (k + 1) rest := by
  rw [fillCmdsAux, hg]

lemma fillCmdsAux_length (landmarks : List Landmark) (style : EyebrowStyle) (w h : ℚ) :
    ∀ (l : List ℕ) (k : ℕ),
      (fillCmdsAux landmarks style w h k l).length =
        (l.filter fun i => decide (i < landmarks.length)).length := by
  intro l
  induction l with
  | nil => intro k; rfl
  | cons i rest ih =>
    intro k
    cases hg : landmarks.get? i with
    | none =>
      have hnot : ¬ (i < landmarks.length) := by
        have := List.get?_eq_none.mp hg
        omega
      rw [fillCmdsAux_cons_none style w h k rest hg, ih (k + 1), List.filter_cons]
      simp [hnot]
    | some lm =>
      have hlt : i < landmarks.length := by
        by_contra hc
        rw [List.get?_eq_none.mpr (by omega)] at hg
        exact Option.noConfusion hg
      rw [fillCmdsAux_cons_some style w h k rest hg, List.length_cons,
        ih (k + 1), List.filter_cons]
      simp [hlt]

/-- C6: on a landmark set shorter than the maximum referenced index
(383), the renderer still completes totally: the stroke variant emits
its three strokes, the out-of-range lookup at the last right-eyebrow
position is treated as the point (0, 0), and the fill variant emits one
path command per in-range index, skipping the missing ones. -/
theorem renderer_total_on_short_landmarks (sinpi : ℚ → ℚ)
    (landmarks : List Landmark) (style : EyebrowStyle) (w h : ℚ)
    (hshort : landmarks.length ≤ 383) :
    (drawOneSideOps sinpi landmarks LEFT_EYEBROW style w h).length = 3 ∧
    (drawOneSideOps sinpi landmarks RIGHT_EYEBROW style w h).length = 3 ∧
    (buildPoints sinpi landmarks RIGHT_EYEBROW style w h).get? 8 =
      some { x := 0, y := 0 } ∧
    (fillCmds landmarks style w h RIGHT_EYEBROW).length =
      (RIGHT_EYEBROW.filter fun i => decide (i < landmarks.length)).length := by
  refine ⟨?_, ?_, ?_, ?_⟩
  · rw [drawOneSideOps, if_neg (by decide)]
    rfl
  · rw [drawOneSideOps, if_neg (by decide)]
    rfl
  · exact buildPoints_of_missing sinpi landmarks RIGHT_EYEBROW style w h 8 383
      rfl (List.get?_eq_none.mpr hshort)
  · exact fillCmdsAux_length landmarks style w h RIGHT_EYEBROW 0

/-- Witness for C6 on a one-point landmark set. -/
theorem renderer_total_on_short_landmarks_witness :
    (drawOneSideOps id [{ x := 1, y := 2 }] LEFT_EYEBROW naturalStyle 5 7).length = 3 ∧
    (buildPoints id [{ x := 1, y := 2 }] RIGHT_EYEBROW naturalStyle 5 7).get? 8 =
      some { x := 0, y := 0 } :=
  ⟨(renderer_total_on_short_landmarks id [{ x := 1, y := 2 }] naturalStyle 5 7
      (by decide)).1,
   (renderer_total_on_short_landmarks id [{ x := 1, y := 2 }] naturalStyle 5 7
      (by decide)).2.2.1⟩

lemma mem_buildPointsAux (sinpi : ℚ → ℚ) (landmarks : List Landmark)
    (style : EyebrowStyle) (w h : ℚ) (L : ℕ) :
    ∀ (l : List ℕ) (k : ℕ) (p : Pt),
      p ∈ buildPointsAux sinpi landmarks style w h L k l →
      ∃ i ∈ l, ∃ idx, p = archPoint sinpi landmarks style w h L idx i := by
  intro l
  induction l with
  | nil => intro k p hp; simp [buildPointsAux] at hp
  | cons i rest ih =>
    intro k p hp
    rw [buildPointsAux] at hp
    rcases List.mem_cons.mp hp with hp | hp
    · exact ⟨i, List.mem_cons_self i rest, k, hp⟩
    · rcases ih (k + 1) p hp with ⟨j, hj, idx, hidx⟩
      exact ⟨j, List.mem_cons_of_mem i hj, idx, hidx⟩

lemma quadSegs_const_y (a : ℚ) : ∀ pts : List Pt, (∀ p ∈ pts, p.y = a) →
    ∀ c ∈ quadSegs pts, ∀ y ∈ cmdYs c, y = a
  | [] => by intro _ c hc; simp [quadSegs] at hc
  | [_] => by intro _ c hc; simp [quadSegs] at hc
  | cp :: np :: rest => by
    intro hall c hc
    rw [quadSegs] at hc
    rcases List.mem_cons.mp hc with hc | hc
    · subst hc
      intro y hy
      have hcy : cp.y = a := hall cp (by simp)
      have hny : np.y = a := hall np (by simp)
      rw [cmdYs] at hy
      rcases List.mem_cons.mp hy with hy | hy
      · rw [hy, hcy]
      · have hy' : y = (cp.y + np.y) / 2 := by simpa using hy
        rw [hy', hcy, hny]
        ring
    · exact quadSegs_const_y a (np :: rest)
        (fun p hp => hall p (List.mem_cons_of_mem cp hp)) c hc

lemma lastPt_const_y (a : ℚ) :
    ∀ (l : List Pt) (p : Pt), p.y = a → (∀ q ∈ l, q.y = a) → (lastPt p l).y = a := by
  intro l
  induction l with
  | nil => intro p hp _; exact hp
  | cons q qs ih =>
    intro p hp hall
    rw [lastPt]
    exact ih q (hall q (by simp)) fun r hr => hall r (List.mem_cons_of_mem q hr)

lemma smoothPath_const_y (a : ℚ) :
    ∀ pts : List Pt, (∀ p ∈ pts, p.y = a) →
      ∀ c ∈ smoothPath pts, ∀ y ∈ cmdYs c, y = a
  | [] => by intro _ c hc; simp [smoothPath] at hc
  | [_] => by intro _ c hc; simp [smoothPath] at hc
  | p0 :: p1 :: rest => by
    intro hall c hc
    rw [smoothPath] at hc
    rcases List.mem_cons.mp hc with hc | hc
    · subst hc
      intro y hy
      have hy' : y = p0.y := by simpa [cmdYs] using hy
      rw [hy']
      exact hall p0 (by simp)
    · rcases List.mem_append.mp hc with hc | hc
      · exact quadSegs_const_y a (p1 :: rest)
          (fun p hp => hall p (List.mem_cons_of_mem p0 hp)) c hc
      · have hc' : c = PathCmd.lineTo (lastPt p1 rest).x (lastPt p1 rest).y := by
          simpa using hc
        subst hc'
        intro y hy
        have hy' : y = (lastPt p1 rest).y := by simpa [cmdYs] using hy
        rw [hy']
        exact lastPt_const_y a rest p1 (hall p1 (by simp))
          fun q hq => hall q (by simp [hq])

/-- C8: when every left-eyebrow index maps to a landmark with y = 0.4
and the natural style is used (offsetY 0, thickness 1, arch strength
0), every built point and every command of the main smoothed stroke
lies at pixel row 0.4 * h, and the main stroke is the first emitted
draw operation at full alpha with line width h * 0.012 * thickness. -/
theorem naturalStyle_horizontal_midline (sinpi : ℚ → ℚ)
    (landmarks : List Landmark) (w h : ℚ)
    (hlm : ∀ i ∈ LEFT_EYEBROW, ∃ lm, landmarks.get? i = some lm ∧ lm.y = 0.4) :
    (∀ p ∈ buildPoints sinpi landmarks LEFT_EYEBROW naturalStyle w h,
      p.y = 0.4 * h) ∧
    (∀ c ∈ smoothPath (buildPoints sinpi landmarks LEFT_EYEBROW naturalStyle w h),
      ∀ y ∈ cmdYs c, y = 0.4 * h) ∧
    (drawOneSideOps sinpi landmarks LEFT_EYEBROW naturalStyle w h).head? =
      some (DrawOp.strokePath naturalStyle.color (h * 0.012 * naturalStyle.thickness) 1
        (smoothPath (buildPoints sinpi landmarks LEFT_EYEBROW naturalStyle w h))) := by
  have hpts : ∀ p ∈ buildPoints sinpi landmarks LEFT_EYEBROW naturalStyle w h,
      p.y = 0.4 * h := by
    intro p hp
    rw [buildPoints] at hp
    rcases mem_buildPointsAux sinpi landmarks naturalStyle w h
      LEFT_EYEBROW.length LEFT_EYEBROW 0 p hp with ⟨i, hi, idx, rfl⟩
    rcases hlm i hi with ⟨lm, hget, hy⟩
    rw [archPoint_of_present sinpi naturalStyle w h LEFT_EYEBROW.length idx hget]
    show lm.y * h + naturalStyle.offsetY * h +
      (-(getArchStrength naturalStyle.id) * h * sinpi (tParam LEFT_EYEBROW.length idx)) = 0.4 * h
    rw [hy]
    norm_num [naturalStyle, getArchStrength]
  refine ⟨hpts, smoothPath_const_y (0.4 * h) _ hpts, ?_⟩
  rw [drawOneSideOps, if_neg (by decide)]
  rfl

/-- Witness for C8 on a landmark set that is constant at y = 0.4. -/
theorem naturalStyle_horizontal_midline_witness :
    (drawOneSideOps id (List.replicate 157 { x := 0.5, y := 0.4 })
        LEFT_EYEBROW naturalStyle 100 10).head? =
      some (DrawOp.strokePath naturalStyle.color ((10 : ℚ) * 0.012 * naturalStyle.thickness) 1
        (smoothPath (buildPoints id (List.replicate 157 { x := 0.5, y := 0.4 })
          LEFT_EYEBROW naturalStyle 100 10))) :=
  (naturalStyle_horizontal_midline id (List.replicate 157 { x := 0.5, y := 0.4 })
    100 10 (by
      intro i hi
      simp only [LEFT_EYEBROW, List.mem_cons, List.not_mem_nil, or_false] at hi
      rcases hi with rfl | rfl | rfl | rfl | rfl | rfl | rfl | rfl | rfl <;>
        exact ⟨{ x := 0.5, y := 0.4 }, rfl, rfl⟩)).2.2

end EyesStudio
